import Mathlib

/-!
Verification of the sshminisig package: a codec converting armored SSH
signatures to a compact one-byte-prefix + base64url format.

Byte sequences are modelled as `List Nat` (each element a byte value).
Go strings are modelled as their byte sequences, so indexing and length
match Go's byte-oriented string semantics exactly.
-/

set_option maxHeartbeats 1000000
set_option maxRecDepth 8000

deriving instance DecidableEq for Except

/-- Byte sequence of an ASCII string literal. -/
def sb (s : String) : List Nat := s.data.map Char.toNat

/-- Big-endian 32-bit read of the first four bytes of a list
(`binary.BigEndian.Uint32`). -/
def be32 (l : List Nat) : Nat :=
  l.getD 0 0 * 16777216 + l.getD 1 0 * 65536 + l.getD 2 0 * 256 + l.getD 3 0

/-- Big-endian 32-bit encoding of a natural number below 2^32. -/
def be32e (n : Nat) : List Nat :=
  [n / 16777216 % 256, n / 65536 % 256, n / 256 % 256, n % 256]

/-- SSH-style length-prefixed string: 4-byte big-endian length, then the data. -/
def encStr (s : List Nat) : List Nat := be32e s.length ++ s

/-- `readString` from the source: reads a uint32 length prefix then that many
bytes, returning `(data, rest)`; `none` models Go's `(nil, nil)` failure
return when fewer than 4 bytes remain or fewer than `n` bytes follow. -/
def readString (b : List Nat) : Option (List Nat × List Nat) :=
  if b.length < 4 then none
  else
    let n := be32 (b.take 4)
    let b1 := b.drop 4
    if b1.length < n then none
    else some (b1.take n, b1.drop n)

/-- One iteration of the skip loop `_, b = readString(b)`: a `nil` buffer
propagates (`readString(nil)` fails), a successful read keeps only the rest. -/
def skipString (ob : Option (List Nat)) : Option (List Nat) :=
  match ob with
  | none => none
  | some b => (readString b).map (fun pr => pr.2)

/-- Parse errors of `parseSignatureBlob`, one per distinct error message. -/
inductive ParseErr where
  | invalidMagic
  | invalidVersion
  | truncated
  | invalidSigBlob
  deriving DecidableEq, Repr

/-- The 6-byte magic preamble "SSHSIG". -/
def magicBytes : List Nat := sb "SSHSIG"

/-- Body of `parseSignatureBlob` after the magic and version checks: skip
three length-prefixed fields (with Go's nil-propagation), read the hash
algorithm and the signature blob, then the algorithm name and signature
data inside the blob, appending any remaining blob bytes to the data. -/
def parseSignatureBlobRest (b : List Nat) :
    Except ParseErr (List Nat × List Nat × List Nat) :=
  match skipString (skipString (skipString (some b))) with
  | none => .error .truncated
  | some b1 =>
    match readString b1 with
    | none => .error .invalidSigBlob
    | some (hashAlg, b2) =>
      match readString b2 with
      | none => .error .invalidSigBlob
      | some (sigBlob, _) =>
        match readString sigBlob with
        | none => .error .invalidSigBlob
        | some (sigAlg, r1) =>
          match readString r1 with
          | none => .error .invalidSigBlob
          | some (sigData, r2) =>
            .ok (sigAlg, hashAlg, if 0 < r2.length then sigData ++ r2 else sigData)

/-- `parseSignatureBlob` from the source: magic preamble, version 1, three
skipped fields, hash algorithm, signature blob containing the algorithm
name and signature data plus an optional verbatim trailer. Returns
`(sigAlgName, hashAlgName, sigData)`. -/
def parseSignatureBlob (blob : List Nat) :
    Except ParseErr (List Nat × List Nat × List Nat) :=
  if blob.length < 6 ∨ blob.take 6 ≠ magicBytes then .error .invalidMagic
  else
    let b := blob.drop 6
    if b.length < 4 ∨ be32 (b.take 4) ≠ 1 then .error .invalidVersion
    else parseSignatureBlobRest (b.drop 4)

/-- `Algs` from the source: a signature algorithm name and a hash algorithm
name, both Go strings modelled as byte sequences. -/
structure Algs where
  Sig : List Nat
  Hash : List Nat
  deriving DecidableEq, Repr

/-- The Go zero value `Algs{}`: both fields empty. -/
def emptyAlgs : Algs := ⟨[], []⟩

/-- Signature algorithm constants from the source. -/
def SigEd25519 : List Nat := sb "ssh-ed25519"
def SigRSA256 : List Nat := sb "rsa-sha2-256"
def SigRSA512 : List Nat := sb "rsa-sha2-512"
def SigECDSAP256 : List Nat := sb "ecdsa-sha2-nistp256"
def SigECDSAP384 : List Nat := sb "ecdsa-sha2-nistp384"
def SigECDSAP521 : List Nat := sb "ecdsa-sha2-nistp521"
def SigSKEd25519 : List Nat := sb "sk-ssh-ed25519@openssh.com"
def SigSKECDSA : List Nat := sb "sk-ecdsa-sha2-nistp256@openssh.com"
def SigLegacyRSA : List Nat := sb "ssh-rsa"
def HashSHA256 : List Nat := sb "sha256"
def HashSHA512 : List Nat := sb "sha512"

/-- Prefix bytes for algorithm combinations (ASCII values of the source's
character constants). -/
def PrefixEd25519 : Nat := 101
def PrefixRSA256 : Nat := 114
def PrefixRSA512 : Nat := 115
def PrefixECDSAP256 : Nat := 99
def PrefixECDSAP384 : Nat := 100
def PrefixECDSAP521 : Nat := 112
def PrefixSKEd25519 : Nat := 102
def PrefixSKECDSA : Nat := 103
def PrefixLegacyRSA256 : Nat := 50
def PrefixLegacyRSA512 : Nat := 53
def PrefixReserved : Nat := 122

/-- The `algsToPrefix` map literal from the source, as an association list
(its keys are pairwise distinct, so lookup order is immaterial). -/
def algsToPrefix : List (Algs × Nat) :=
  [(⟨SigEd25519, HashSHA512⟩, PrefixEd25519),
   (⟨SigRSA256, HashSHA256⟩, PrefixRSA256),
   (⟨SigRSA512, HashSHA512⟩, PrefixRSA512),
   (⟨SigECDSAP256, HashSHA512⟩, PrefixECDSAP256),
   (⟨SigECDSAP384, HashSHA512⟩, PrefixECDSAP384),
   (⟨SigECDSAP521, HashSHA512⟩, PrefixECDSAP521),
   (⟨SigSKEd25519, HashSHA512⟩, PrefixSKEd25519),
   (⟨SigSKECDSA, HashSHA256⟩, PrefixSKECDSA),
   (⟨SigLegacyRSA, HashSHA256⟩, PrefixLegacyRSA256),
   (⟨SigLegacyRSA, HashSHA512⟩, PrefixLegacyRSA512)]

/-- Go map lookup `algsToPrefix[a]`. -/
def algsToPrefixLookup (a : Algs) : Option Nat :=
  (algsToPrefix.find? (fun p => decide (p.1 = a))).map (fun p => p.2)

/-- The `PrefixToAlgs` array built by `init`: maps each byte to its
algorithm combination, the zero value for bytes not in the table. -/
def PrefixToAlgs (b : Nat) : Algs :=
  ((algsToPrefix.find? (fun p => decide (p.2 = b))).map (fun p => p.1)).getD emptyAlgs

/-- `maxArmoredSize` from the source. -/
def maxArmoredSize : Nat := 8 * 1024

/-- The base64url alphabet used by Go's `base64.RawURLEncoding`, as bytes. -/
def b64Alphabet : List Nat :=
  sb "ABCDEFGHIJKLMNOPQRSTUVWXYZabcdefghijklmnopqrstuvwxyz0123456789-_"

/-- The alphabet byte for a 6-bit value. -/
def b64Char (i : Nat) : Nat := b64Alphabet.getD i 65

/-- Position of a byte in the base64url alphabet, `none` for bytes outside it
(Go's decode map). -/
def b64Index (c : Nat) : Option Nat :=
  (List.range 64).find? (fun i => b64Alphabet.getD i 65 == c)

/-- Unpadded base64url encoding of a byte sequence
(`base64.RawURLEncoding.EncodeToString`). -/
def base64RawURLEncode : List Nat → List Nat
  | [] => []
  | [a] => [b64Char (a / 4), b64Char (a % 4 * 16)]
  | [a, b] => [b64Char (a / 4), b64Char (a % 4 * 16 + b / 16), b64Char (b % 16 * 4)]
  | a :: b :: c :: rest =>
    b64Char (a / 4) :: b64Char (a % 4 * 16 + b / 16) ::
      b64Char (b % 16 * 4 + c / 64) :: b64Char (c % 64) :: base64RawURLEncode rest

/-- Quantum-by-quantum base64url decoding after newline removal: full 4-char
groups yield 3 bytes; a final group of 2 or 3 chars yields 1 or 2 bytes
(unused trailing bits ignored, as in Go's non-strict mode); a final group
of 1 char is an error, as is any byte outside the alphabet. -/
def b64DecodeChunks : List Nat → Option (List Nat)
  | [] => some []
  | [_] => none
  | [a, b] =>
    match b64Index a, b64Index b with
    | some x, some y => some [x * 4 + y / 16]
    | _, _ => none
  | [a, b, c] =>
    match b64Index a, b64Index b, b64Index c with
    | some x, some y, some z => some [x * 4 + y / 16, y % 16 * 16 + z / 4]
    | _, _, _ => none
  | a :: b :: c :: d :: rest =>
    match b64Index a, b64Index b, b64Index c, b64Index d, b64DecodeChunks rest with
    | some x, some y, some z, some w, some tl =>
      some ((x * 4 + y / 16) :: (y % 16 * 16 + z / 4) :: (z % 4 * 64 + w) :: tl)
    | _, _, _, _, _ => none

/-- `base64.RawURLEncoding.DecodeString`: Go's decoder ignores CR and LF
bytes anywhere in the input, then decodes in quanta. -/
def base64RawURLDecode (s : List Nat) : Option (List Nat) :=
  b64DecodeChunks (s.filter (fun c => !(c == 13 || c == 10)))

/-- Modelled from the spec: the armor wrapper (`encoding/pem`, outside this
repository) is an external collaborator with contract
`unwrap(bytes) → (label, payload) | error`; we model the pair as a block. -/
structure PemBlock where
  type : List Nat
  bytes : List Nat
  deriving DecidableEq, Repr

/-- Modelled from the spec: armor a block — a framing whose unwrap recovers
the label and payload exactly, per the collaborator contract in the spec. -/
def pemEncode (blk : PemBlock) : List Nat := encStr blk.type ++ blk.bytes

/-- Modelled from the spec: `pem.Decode`, the external unwrap primitive;
returns the label and payload, or `none` when the input is not valid armor. -/
def pemDecode (l : List Nat) : Option PemBlock :=
  (readString l).map (fun pr => ⟨pr.1, pr.2⟩)

/-- The expected armor label "SSH SIGNATURE". -/
def sshSigLabel : List Nat := sb "SSH SIGNATURE"

/-- Errors returned by `Encode`, one per distinct error site. -/
inductive EncodeErr where
  | tooLarge
  | invalidArmor
  | parseFailed (e : ParseErr)
  | unsupported (sigAlg hashAlg : List Nat)
  deriving DecidableEq, Repr

/-- `Encode` from the source: size ceiling, unwrap the armor and check its
label, parse the signature blob, look up the algorithm pair, and emit the
prefix byte followed by the unpadded base64url signature bytes. -/
def Encode (armored : List Nat) : Except EncodeErr (List Nat) :=
  if armored.length > maxArmoredSize then .error .tooLarge
  else
    match pemDecode armored with
    | none => .error .invalidArmor
    | some blk =>
      if blk.type ≠ sshSigLabel then .error .invalidArmor
      else
        match parseSignatureBlob blk.bytes with
        | .error e => .error (.parseFailed e)
        | .ok (sigAlg, hashAlg, sigData) =>
          match algsToPrefixLookup ⟨sigAlg, hashAlg⟩ with
          | none => .error (.unsupported sigAlg hashAlg)
          | some pb => .ok (pb :: base64RawURLEncode sigData)

/-- Errors returned by `Decode`, one per distinct error site. -/
inductive DecodeErr where
  | tooShort
  | unknownPre (b : Nat)
  | decodeFailed
  deriving DecidableEq, Repr

/-- `Decode` from the source: length check, reverse prefix lookup (failing on
the zero value), then unpadded base64url decoding of the remainder. -/
def Decode (minisig : List Nat) : Except DecodeErr (Algs × List Nat) :=
  if minisig.length < 2 then .error .tooShort
  else
    let algs := PrefixToAlgs (minisig.headD 0)
    if algs.Sig = [] then .error (.unknownPre (minisig.headD 0))
    else
      match base64RawURLDecode (minisig.drop 1) with
      | none => .error .decodeFailed
      | some sigBytes => .ok (algs, sigBytes)

/-- A well-formed signature-blob payload: magic, version 1, three skipped
fields, hash name, and a signature blob of algorithm name, signature data
and trailer. -/
def validPayload (f1 f2 f3 ha blb : List Nat) : List Nat :=
  magicBytes ++ [0, 0, 0, 1] ++ encStr f1 ++ encStr f2 ++ encStr f3 ++
    encStr ha ++ encStr blb

/-- A valid armored envelope for an algorithm pair and signature bytes:
empty public key, namespace and reserved fields. -/
def validEnvelopeFor (a : Algs) (sig : List Nat) : List Nat :=
  pemEncode ⟨sshSigLabel, validPayload [] [] [] a.Hash (encStr a.Sig ++ encStr sig)⟩

example : sb "SSHSIG" = [83, 83, 72, 83, 73, 71] := by decide
example : be32 [0, 0, 0, 1] = 1 := by decide
example : readString [0, 0, 0, 2, 7, 8, 9] = some ([7, 8], [9]) := by decide
example : base64RawURLEncode [1, 2, 3] = sb "AQID" := by decide
example : base64RawURLDecode (sb "AQID") = some [1, 2, 3] := by decide
example : base64RawURLDecode [10] = some [] := by decide
example : PrefixToAlgs 101 = ⟨SigEd25519, HashSHA512⟩ := by decide
example : PrefixToAlgs 122 = emptyAlgs := by decide
example :
    parseSignatureBlob (validPayload [] [] [] HashSHA512 (encStr SigEd25519 ++ encStr [1, 2, 3])) =
      .ok (SigEd25519, HashSHA512, [1, 2, 3]) := by decide
example :
    Encode (validEnvelopeFor ⟨SigEd25519, HashSHA512⟩ [1, 2, 3]) =
      .ok (101 :: sb "AQID") := by decide
example :
    Decode (101 :: sb "AQID") = .ok (⟨SigEd25519, HashSHA512⟩, [1, 2, 3]) := by decide

/-- `be32e` always produces four bytes. -/
lemma length_be32e (n : Nat) : (be32e n).length = 4 := rfl

/-- Reading back a big-endian encoded length below 2^32 recovers it. -/
lemma be32_be32e (n : Nat) (h : n < 2 ^ 32) : be32 (be32e n) = n := by
  simp [be32, be32e]
  omega

/-- A length-prefixed string is 4 bytes longer than its data. -/
lemma length_encStr (s : List Nat) : (encStr s).length = 4 + s.length := by
  simp [encStr, length_be32e]

/-- `readString` on a well-formed length-prefixed string followed by anything
returns the data and the rest. -/
lemma readString_encStr (s r : List Nat) (h : s.length < 2 ^ 32) :
    readString (encStr s ++ r) = some (s, r) := by
  have e1 : encStr s ++ r = be32e s.length ++ (s ++ r) := by
    simp [encStr, List.append_assoc]
  rw [e1]
  simp only [readString]
  rw [List.take_left' (length_be32e s.length), List.drop_left' (length_be32e s.length),
    be32_be32e _ h]
  have hl : ¬(be32e s.length ++ (s ++ r)).length < 4 := by
    simp [List.length_append, length_be32e]
  have hl2 : ¬(s ++ r).length < s.length := by
    rw [List.length_append]; omega
  rw [if_neg hl, if_neg hl2, List.take_left, List.drop_left]

/-- `readString` on a length-prefixed string with nothing after it. -/
lemma readString_encStr_nil (s : List Nat) (h : s.length < 2 ^ 32) :
    readString (encStr s) = some (s, []) := by
  simpa using readString_encStr s [] h

/-- `readString` on a byte-for-byte truncation of a well-formed
length-prefixed string: fails while the cut is inside the string, and
otherwise returns the data together with the truncated remainder. -/
lemma readString_take (s r : List Nat) (h : s.length < 2 ^ 32) (k : Nat) :
    readString ((encStr s ++ r).take k) =
      if k < 4 + s.length then none else some (s, r.take (k - (4 + s.length))) := by
  have e1 : encStr s ++ r = be32e s.length ++ (s ++ r) := by
    simp [encStr, List.append_assoc]
  rw [e1]
  rcases Nat.lt_or_ge k 4 with hk4 | hk4
  · rw [if_pos (by omega)]
    simp only [readString]
    rw [if_pos]
    rw [List.length_take]
    simp [List.length_append, length_be32e]
    omega
  · have e2 : (be32e s.length ++ (s ++ r)).take k =
        be32e s.length ++ (s ++ r).take (k - 4) := by
      rw [List.take_append_eq_append_take, length_be32e,
        List.take_of_length_le (by rw [length_be32e]; omega)]
    rw [e2]
    simp only [readString]
    rw [List.take_left' (length_be32e s.length), List.drop_left' (length_be32e s.length),
      be32_be32e _ h]
    have hl : ¬(be32e s.length ++ (s ++ r).take (k - 4)).length < 4 := by
      simp [List.length_append, length_be32e]
    rcases Nat.lt_or_ge k (4 + s.length) with hks | hks
    · rw [if_pos hks, if_neg hl, if_pos]
      rw [List.length_take, List.length_append]
      omega
    · have hl2 : ¬((s ++ r).take (k - 4)).length < s.length := by
        rw [List.length_take, List.length_append]
        omega
      rw [if_neg hl, if_neg hl2, if_neg (show ¬k < 4 + s.length by omega)]
      have e3 : ((s ++ r).take (k - 4)).take s.length = s := by
        rw [List.take_take, min_eq_left (by omega), List.take_left]
      have e4 : ((s ++ r).take (k - 4)).drop s.length = r.take (k - (4 + s.length)) := by
        rw [List.drop_take, List.drop_left, Nat.sub_sub]
      rw [e3, e4]

/-- The skip loop step fails on a failed buffer. -/
lemma skipString_none : skipString none = none := rfl

/-- The skip loop step over a well-formed length-prefixed string. -/
lemma skipString_encStr (s r : List Nat) (h : s.length < 2 ^ 32) :
    skipString (some (encStr s ++ r)) = some r := by
  simp [skipString, readString_encStr s r h]

/-- The skip loop step over a truncated length-prefixed string. -/
lemma skipString_take (s r : List Nat) (h : s.length < 2 ^ 32) (k : Nat) :
    skipString (some ((encStr s ++ r).take k)) =
      if k < 4 + s.length then none else some (r.take (k - (4 + s.length))) := by
  rw [skipString, readString_take s r h k]
  rcases Nat.lt_or_ge k (4 + s.length) with hk | hk
  · rw [if_pos hk, if_pos hk]
    rfl
  · rw [if_neg (by omega), if_neg (by omega)]
    rfl

/-- On a payload with valid magic and version, the parser proceeds to the
body starting right after the 10 header bytes. -/
lemma parseSignatureBlob_header (R : List Nat) :
    parseSignatureBlob (magicBytes ++ ([0, 0, 0, 1] ++ R)) = parseSignatureBlobRest R := by
  have hm : magicBytes.length = 6 := rfl
  have t6 : (magicBytes ++ ([0, 0, 0, 1] ++ R)).take 6 = magicBytes := List.take_left' hm
  have d6 : (magicBytes ++ ([0, 0, 0, 1] ++ R)).drop 6 = [0, 0, 0, 1] ++ R :=
    List.drop_left' hm
  have t4 : (([0, 0, 0, 1] : List Nat) ++ R).take 4 = [0, 0, 0, 1] := List.take_left' rfl
  have d4 : (([0, 0, 0, 1] : List Nat) ++ R).drop 4 = R := List.drop_left' rfl
  have c1 : ¬((magicBytes ++ ([0, 0, 0, 1] ++ R)).length < 6 ∨
      (magicBytes ++ ([0, 0, 0, 1] ++ R)).take 6 ≠ magicBytes) := by
    push_neg
    refine ⟨?_, t6⟩
    rw [List.length_append, hm]
    omega
  simp only [parseSignatureBlob]
  rw [if_neg c1, d6]
  have c2 : ¬((([0, 0, 0, 1] : List Nat) ++ R).length < 4 ∨
      be32 ((([0, 0, 0, 1] : List Nat) ++ R).take 4) ≠ 1) := by
    push_neg
    constructor
    · simp only [List.length_append, List.length_cons, List.length_nil]
      omega
    · rw [t4]
      decide
  rw [if_neg c2, d4]

/-- Parsing a fully well-formed payload succeeds, returning the signature
algorithm name, the hash algorithm name, and the signature data with any
trailer bytes of the signature blob appended verbatim. -/
lemma parse_wellFormed (f1 f2 f3 ha sa sd tr : List Nat)
    (h1 : f1.length < 2 ^ 32) (h2 : f2.length < 2 ^ 32) (h3 : f3.length < 2 ^ 32)
    (h4 : ha.length < 2 ^ 32) (h5 : (encStr sa ++ encStr sd ++ tr).length < 2 ^ 32)
    (h6 : sa.length < 2 ^ 32) (h7 : sd.length < 2 ^ 32) :
    parseSignatureBlob (validPayload f1 f2 f3 ha (encStr sa ++ encStr sd ++ tr)) =
      .ok (sa, ha, sd ++ tr) := by
  have e0 : validPayload f1 f2 f3 ha (encStr sa ++ encStr sd ++ tr) =
      magicBytes ++ ([0, 0, 0, 1] ++ (encStr f1 ++ (encStr f2 ++ (encStr f3 ++
        (encStr ha ++ encStr (encStr sa ++ (encStr sd ++ tr))))))) := by
    simp [validPayload, List.append_assoc]
  have hblb : (encStr sa ++ (encStr sd ++ tr)).length < 2 ^ 32 := by
    simpa [List.append_assoc] using h5
  rw [e0, parseSignatureBlob_header]
  simp only [parseSignatureBlobRest,
    skipString_encStr _ _ h1, skipString_encStr _ _ h2, skipString_encStr _ _ h3,
    readString_encStr _ _ h4, readString_encStr_nil _ hblb,
    readString_encStr _ _ h6, readString_encStr _ _ h7]
  rcases tr with _ | ⟨t, ts⟩
  · simp
  · simp

/-- Decoding an alphabet byte recovers its 6-bit value, for all 64 values. -/
lemma b64_tab : ∀ i < 64, b64Index (b64Char i) = some i := by decide

/-- Instance form of `b64_tab`. -/
lemma b64Index_b64Char (i : Nat) (h : i < 64) : b64Index (b64Char i) = some i :=
  b64_tab i h

/-- No alphabet byte (nor the out-of-range default) is CR or LF. -/
lemma b64Char_keep (i : Nat) : (!(b64Char i == 13 || b64Char i == 10)) = true := by
  rcases Nat.lt_or_ge i 64 with h | h
  · exact (by decide : ∀ j < 64, (!(b64Char j == 13 || b64Char j == 10)) = true) i h
  · have e : b64Char i = 65 := by
      rw [b64Char]
      exact List.getD_eq_default _ _ (le_trans (by decide) h)
    rw [e]
    decide

/-- Every byte of a base64url encoding is an alphabet byte. -/
lemma mem_b64encode (l : List Nat) : ∀ a ∈ base64RawURLEncode l, ∃ i, a = b64Char i := by
  induction l using base64RawURLEncode.induct with
  | case1 => simp [base64RawURLEncode]
  | case2 x =>
    intro a ha
    simp only [base64RawURLEncode, List.mem_cons, List.not_mem_nil, or_false] at ha
    rcases ha with h | h
    · exact ⟨_, h⟩
    · exact ⟨_, h⟩
  | case3 x y =>
    intro a ha
    simp only [base64RawURLEncode, List.mem_cons, List.not_mem_nil, or_false] at ha
    rcases ha with h | h | h
    · exact ⟨_, h⟩
    · exact ⟨_, h⟩
    · exact ⟨_, h⟩
  | case4 x y z rest ih =>
    intro a ha
    simp only [base64RawURLEncode, List.mem_cons] at ha
    rcases ha with h | h | h | h | h
    · exact ⟨_, h⟩
    · exact ⟨_, h⟩
    · exact ⟨_, h⟩
    · exact ⟨_, h⟩
    · exact ih a h

/-- Go's newline filtering leaves a base64url encoding unchanged. -/
lemma filter_b64encode (l : List Nat) :
    (base64RawURLEncode l).filter (fun c => !(c == 13 || c == 10)) = base64RawURLEncode l := by
  apply List.filter_eq_self.mpr
  intro a ha
  obtain ⟨i, rfl⟩ := mem_b64encode l a ha
  exact b64Char_keep i

/-- Chunkwise decoding inverts encoding on byte sequences. -/
lemma chunks_encode (l : List Nat) (h : ∀ x ∈ l, x < 256) :
    b64DecodeChunks (base64RawURLEncode l) = some l := by
  induction l using base64RawURLEncode.induct with
  | case1 => rfl
  | case2 a =>
    have ha : a < 256 := h a (by simp)
    simp only [base64RawURLEncode, b64DecodeChunks,
      b64Index_b64Char (a / 4) (by omega), b64Index_b64Char (a % 4 * 16) (by omega)]
    have e : a / 4 * 4 + a % 4 * 16 / 16 = a := by omega
    rw [e]
  | case3 a b =>
    have ha : a < 256 := h a (by simp)
    have hb : b < 256 := h b (by simp)
    simp only [base64RawURLEncode, b64DecodeChunks,
      b64Index_b64Char (a / 4) (by omega),
      b64Index_b64Char (a % 4 * 16 + b / 16) (by omega),
      b64Index_b64Char (b % 16 * 4) (by omega)]
    have e1 : a / 4 * 4 + (a % 4 * 16 + b / 16) / 16 = a := by omega
    have e2 : (a % 4 * 16 + b / 16) % 16 * 16 + b % 16 * 4 / 4 = b := by omega
    rw [e1, e2]
  | case4 a b c rest ih =>
    have ha : a < 256 := h a (by simp)
    have hb : b < 256 := h b (by simp)
    have hc : c < 256 := h c (by simp)
    have hrest : ∀ x ∈ rest, x < 256 := fun x hx => h x (by simp [hx])
    simp only [base64RawURLEncode, b64DecodeChunks,
      b64Index_b64Char (a / 4) (by omega),
      b64Index_b64Char (a % 4 * 16 + b / 16) (by omega),
      b64Index_b64Char (b % 16 * 4 + c / 64) (by omega),
      b64Index_b64Char (c % 64) (by omega), ih hrest]
    have e1 : a / 4 * 4 + (a % 4 * 16 + b / 16) / 16 = a := by omega
    have e2 : (a % 4 * 16 + b / 16) % 16 * 16 + (b % 16 * 4 + c / 64) / 4 = b := by omega
    have e3 : (b % 16 * 4 + c / 64) % 4 * 64 + c % 64 = c := by omega
    rw [e1, e2, e3]

/-- Decoding inverts encoding on byte sequences. -/
lemma b64_roundtrip (l : List Nat) (h : ∀ x ∈ l, x < 256) :
    base64RawURLDecode (base64RawURLEncode l) = some l := by
  rw [base64RawURLDecode, filter_b64encode, chunks_encode l h]

/-- The encoding of a nonempty byte sequence is nonempty. -/
lemma b64encode_ne_nil (l : List Nat) (h : l ≠ []) : base64RawURLEncode l ≠ [] := by
  rcases l with _ | ⟨a, _ | ⟨b, _ | ⟨c, rest⟩⟩⟩
  · simp at h
  · simp [base64RawURLEncode]
  · simp [base64RawURLEncode]
  · simp [base64RawURLEncode]

/-- Unwrapping inverts wrapping, per the armor collaborator contract. -/
lemma pemDecode_pemEncode (blk : PemBlock) (h : blk.type.length < 2 ^ 32) :
    pemDecode (pemEncode blk) = some blk := by
  rw [pemDecode, pemEncode, readString_encStr _ _ h]
  rfl

/-- Size of the valid envelope built for a pair and signature bytes. -/
lemma length_validEnvelopeFor (a : Algs) (sig : List Nat) :
    (validEnvelopeFor a sig).length = 55 + a.Hash.length + a.Sig.length + sig.length := by
  have h1 : sshSigLabel.length = 13 := rfl
  have h2 : magicBytes.length = 6 := rfl
  simp only [validEnvelopeFor, pemEncode, validPayload, List.length_append, length_encStr,
    h1, h2, List.length_cons, List.length_nil]
  omega

/-- If the size check passes, unwrap yields a correctly labelled block, the
parse succeeds and the pair is registered, `Encode` returns the token. -/
lemma Encode_ok_of (armored P sa ha sd : List Nat) (pb : Nat)
    (hsz : ¬armored.length > maxArmoredSize)
    (hpem : pemDecode armored = some ⟨sshSigLabel, P⟩)
    (hparse : parseSignatureBlob P = .ok (sa, ha, sd))
    (hlook : algsToPrefixLookup ⟨sa, ha⟩ = some pb) :
    Encode armored = .ok (pb :: base64RawURLEncode sd) := by
  rw [Encode, if_neg hsz, hpem]
  dsimp only
  rw [if_neg (show ¬sshSigLabel ≠ sshSigLabel from fun hcon => hcon rfl), hparse]
  dsimp only
  rw [hlook]

/-- If the token has a nonempty payload whose reverse lookup is a pair with a
nonempty signature-algorithm name and the payload decodes, `Decode` returns
the pair and the bytes. -/
lemma Decode_ok_of (pb : Nat) (rest : List Nat) (a : Algs) (sd : List Nat)
    (hrest : rest ≠ [])
    (hrev : PrefixToAlgs pb = a) (hsig : a.Sig ≠ [])
    (hdec : base64RawURLDecode rest = some sd) :
    Decode (pb :: rest) = .ok (a, sd) := by
  have hlen2 : ¬(pb :: rest).length < 2 := by
    rcases rest with _ | ⟨y, ys⟩
    · exact absurd rfl hrest
    · simp
  rw [Decode, if_neg hlen2]
  have hh : (pb :: rest).headD 0 = pb := rfl
  have hd : (pb :: rest).drop 1 = rest := rfl
  rw [hh, hrev]
  dsimp only
  rw [if_neg hsig, hd, hdec]

/-- Core round-trip fact: encoding a valid envelope for a registered pair and
then decoding the token recovers the pair and the signature bytes. -/
lemma roundtrip_core (a : Algs) (pb : Nat) (sig : List Nat)
    (hlook : algsToPrefixLookup a = some pb)
    (hrev : PrefixToAlgs pb = a)
    (hsig : a.Sig ≠ [])
    (hne : sig ≠ []) (hbytes : ∀ x ∈ sig, x < 256)
    (henv : (validEnvelopeFor a sig).length ≤ 8192) :
    Encode (validEnvelopeFor a sig) = .ok (pb :: base64RawURLEncode sig) ∧
      Decode (pb :: base64RawURLEncode sig) = .ok (a, sig) := by
  have heq := length_validEnvelopeFor a sig
  have hsz : ¬(validEnvelopeFor a sig).length > maxArmoredSize := by
    rw [maxArmoredSize]
    omega
  have hpem : pemDecode (validEnvelopeFor a sig) =
      some ⟨sshSigLabel, validPayload [] [] [] a.Hash (encStr a.Sig ++ encStr sig)⟩ :=
    pemDecode_pemEncode _ (show sshSigLabel.length < 2 ^ 32 by decide)
  have hparse : parseSignatureBlob (validPayload [] [] [] a.Hash (encStr a.Sig ++ encStr sig)) =
      .ok (a.Sig, a.Hash, sig) := by
    have h5 : (encStr a.Sig ++ encStr sig ++ ([] : List Nat)).length < 2 ^ 32 := by
      simp only [List.append_nil, List.length_append, length_encStr]
      omega
    have := parse_wellFormed [] [] [] a.Hash a.Sig sig []
      (by decide) (by decide) (by decide) (by omega) h5 (by omega) (by omega)
    simpa using this
  have hlook2 : algsToPrefixLookup ⟨a.Sig, a.Hash⟩ = some pb := hlook
  exact ⟨Encode_ok_of _ _ _ _ _ pb hsz hpem hparse hlook2,
    Decode_ok_of pb _ a sig (b64encode_ne_nil sig hne) hrev hsig (b64_roundtrip sig hbytes)⟩

/-- C1 (counterexample): for the empty signature byte sequence the round trip
fails — the encoded token is the bare prefix byte, one character long, and
`Decode` rejects it as too short, so decoding does not return the pair. -/
theorem roundTrip_empty_sig_fails :
    Encode (validEnvelopeFor ⟨SigEd25519, HashSHA512⟩ []) = .ok [PrefixEd25519] ∧
      Decode [PrefixEd25519] = .error .tooShort := by decide

/-- C1 (amended): for every supported pair and every nonempty signature byte
sequence whose armored envelope fits the 8192-byte ceiling, encoding the
valid envelope and then decoding the resulting token returns the same pair
and the same signature bytes. -/
theorem roundTrip_supported_pairs (p : Algs × Nat) (hp : p ∈ algsToPrefix)
    (sig : List Nat) (hne : sig ≠ []) (hbytes : ∀ x ∈ sig, x < 256)
    (henv : (validEnvelopeFor p.1 sig).length ≤ 8192) :
    ∃ token, Encode (validEnvelopeFor p.1 sig) = .ok token ∧
      Decode token = .ok (p.1, sig) := by
  simp only [algsToPrefix, List.mem_cons, List.not_mem_nil, or_false] at hp
  rcases hp with rfl | rfl | rfl | rfl | rfl | rfl | rfl | rfl | rfl | rfl
  · exact ⟨_, roundtrip_core ⟨SigEd25519, HashSHA512⟩ PrefixEd25519 sig (by decide)
      (by decide) (by decide) hne hbytes henv⟩
  · exact ⟨_, roundtrip_core ⟨SigRSA256, HashSHA256⟩ PrefixRSA256 sig (by decide)
      (by decide) (by decide) hne hbytes henv⟩
  · exact ⟨_, roundtrip_core ⟨SigRSA512, HashSHA512⟩ PrefixRSA512 sig (by decide)
      (by decide) (by decide) hne hbytes henv⟩
  · exact ⟨_, roundtrip_core ⟨SigECDSAP256, HashSHA512⟩ PrefixECDSAP256 sig (by decide)
      (by decide) (by decide) hne hbytes henv⟩
  · exact ⟨_, roundtrip_core ⟨SigECDSAP384, HashSHA512⟩ PrefixECDSAP384 sig (by decide)
      (by decide) (by decide) hne hbytes henv⟩
  · exact ⟨_, roundtrip_core ⟨SigECDSAP521, HashSHA512⟩ PrefixECDSAP521 sig (by decide)
      (by decide) (by decide) hne hbytes henv⟩
  · exact ⟨_, roundtrip_core ⟨SigSKEd25519, HashSHA512⟩ PrefixSKEd25519 sig (by decide)
      (by decide) (by decide) hne hbytes henv⟩
  · exact ⟨_, roundtrip_core ⟨SigSKECDSA, HashSHA256⟩ PrefixSKECDSA sig (by decide)
      (by decide) (by decide) hne hbytes henv⟩
  · exact ⟨_, roundtrip_core ⟨SigLegacyRSA, HashSHA256⟩ PrefixLegacyRSA256 sig (by decide)
      (by decide) (by decide) hne hbytes henv⟩
  · exact ⟨_, roundtrip_core ⟨SigLegacyRSA, HashSHA512⟩ PrefixLegacyRSA512 sig (by decide)
      (by decide) (by decide) hne hbytes henv⟩

/-- C1 (witness): the round trip at the ed25519 pair with bytes 1, 2, 3. -/
theorem roundTrip_supported_pairs_witness :
    ∃ token, Encode (validEnvelopeFor ⟨SigEd25519, HashSHA512⟩ [1, 2, 3]) = .ok token ∧
      Decode token = .ok (⟨SigEd25519, HashSHA512⟩, [1, 2, 3]) :=
  roundTrip_supported_pairs (⟨SigEd25519, HashSHA512⟩, PrefixEd25519) (by decide)
    [1, 2, 3] (by decide) (by decide) (by decide)

/-- C2 (counterexample): an envelope whose parsed signature-algorithm field is
the literal string "ssh-ed25519 scheme" (with hash "sha512" and bytes 1, 2, 3)
does not encode to "e" plus base64url: the registry has no such key, so
`Encode` fails with the unsupported-algorithm error naming both fields. -/
theorem scenario_ed25519_literal_name_fails :
    parseSignatureBlob (validPayload [] [] [] HashSHA512
        (encStr (sb "ssh-ed25519 scheme") ++ encStr [1, 2, 3])) =
      .ok (sb "ssh-ed25519 scheme", HashSHA512, [1, 2, 3]) ∧
    Encode (pemEncode ⟨sshSigLabel, validPayload [] [] [] HashSHA512
        (encStr (sb "ssh-ed25519 scheme") ++ encStr [1, 2, 3])⟩) =
      .error (.unsupported (sb "ssh-ed25519 scheme") HashSHA512) := by decide

/-- C2 (amended): an envelope whose parsed fields are signature algorithm
"ssh-ed25519" and hash "sha512" with bytes 1, 2, 3 encodes to the byte "e"
followed by the unpadded base64url of those bytes ("AQID"), and decoding
that token returns the same pair and bytes. -/
theorem scenario_ed25519_amended :
    parseSignatureBlob (validPayload [] [] [] HashSHA512
        (encStr SigEd25519 ++ encStr [1, 2, 3])) =
      .ok (SigEd25519, HashSHA512, [1, 2, 3]) ∧
    Encode (validEnvelopeFor ⟨SigEd25519, HashSHA512⟩ [1, 2, 3]) =
      .ok (PrefixEd25519 :: sb "AQID") ∧
    Decode (PrefixEd25519 :: sb "AQID") = .ok (⟨SigEd25519, HashSHA512⟩, [1, 2, 3]) := by
  decide

/-- C4: the reverse lookup is a total function on all 256 byte values — every
byte yields either its table row's pair or the empty sentinel pair, every
byte without a table row (in particular the reserved byte "z") yields the
empty sentinel. -/
theorem reverseLookup_total :
    (∀ b : Fin 256, (∃ p ∈ algsToPrefix, p.2 = b.val ∧ PrefixToAlgs b.val = p.1) ∨
      (PrefixToAlgs b.val = emptyAlgs ∧ algsToPrefix.all (fun p => p.2 != b.val))) ∧
    PrefixToAlgs PrefixReserved = emptyAlgs := by decide

/-- C5: no two rows of the fixed algorithm table share a prefix byte; the
legacy RSA name with sha256 and sha512 maps to the distinct bytes "2" and
"5", and decoding a token with each of those prefixes recovers the correct
hash algorithm. -/
theorem forwardTable_injective :
    algsToPrefix.Pairwise (fun p q => p.2 ≠ q.2) ∧
    algsToPrefixLookup ⟨SigLegacyRSA, HashSHA256⟩ = some PrefixLegacyRSA256 ∧
    algsToPrefixLookup ⟨SigLegacyRSA, HashSHA512⟩ = some PrefixLegacyRSA512 ∧
    PrefixLegacyRSA256 ≠ PrefixLegacyRSA512 ∧
    Decode (PrefixLegacyRSA256 :: sb "AQID") = .ok (⟨SigLegacyRSA, HashSHA256⟩, [1, 2, 3]) ∧
    Decode (PrefixLegacyRSA512 :: sb "AQID") = .ok (⟨SigLegacyRSA, HashSHA512⟩, [1, 2, 3]) := by
  decide

/-- C6: on any input of 8193 or more bytes `Encode` returns exactly the
too-large error — the size check precedes unwrapping and parsing, so no
other outcome is possible for such input. -/
theorem encode_size_ceiling (armored : List Nat) (h : armored.length ≥ 8193) :
    Encode armored = .error .tooLarge := by
  rw [Encode, if_pos]
  rw [maxArmoredSize]
  omega

/-- C6 (witness): 8193 zero bytes are rejected as too large. -/
theorem encode_size_ceiling_witness :
    Encode (List.replicate 8193 0) = .error .tooLarge :=
  encode_size_ceiling (List.replicate 8193 0) (by rw [List.length_replicate])

/-- C7: when the parser reads the algorithm name and the signature data
inside the signature blob, the bytes remaining in the blob are appended
verbatim, in order, to the returned signature data; with no remaining bytes
the data is returned unchanged (the trailer may be empty). -/
theorem trailer_appended_verbatim (f1 f2 f3 ha sa sd tr : List Nat)
    (h1 : f1.length < 2 ^ 32) (h2 : f2.length < 2 ^ 32) (h3 : f3.length < 2 ^ 32)
    (h4 : ha.length < 2 ^ 32) (h5 : (encStr sa ++ encStr sd ++ tr).length < 2 ^ 32)
    (h6 : sa.length < 2 ^ 32) (h7 : sd.length < 2 ^ 32) :
    parseSignatureBlob (validPayload f1 f2 f3 ha (encStr sa ++ encStr sd ++ tr)) =
      .ok (sa, ha, sd ++ tr) :=
  parse_wellFormed f1 f2 f3 ha sa sd tr h1 h2 h3 h4 h5 h6 h7

/-- C7 (witness): a signature blob with a 5-byte trailer (as for hardware-key
flags and counter) yields the signature data with the trailer appended. -/
theorem trailer_appended_verbatim_witness :
    parseSignatureBlob (validPayload [1] [2] [3] HashSHA512
        (encStr SigEd25519 ++ encStr [7, 8] ++ [5, 0, 0, 0, 9])) =
      .ok (SigEd25519, HashSHA512, [7, 8] ++ [5, 0, 0, 0, 9]) :=
  trailer_appended_verbatim [1] [2] [3] HashSHA512 SigEd25519 [7, 8] [5, 0, 0, 0, 9]
    (by decide) (by decide) (by decide) (by decide) (by decide) (by decide) (by decide)

/-- C8 (counterexample): the two-byte input "e" followed by a line feed is
decoded successfully — Go's base64 decoder ignores CR and LF, so the payload
decodes to the empty byte sequence instead of failing. -/
theorem decode_len2_newline_counterexample :
    ([PrefixEd25519, 10] : List Nat).length = 2 ∧
    Decode [PrefixEd25519, 10] = .ok (⟨SigEd25519, HashSHA512⟩, []) := by decide

/-- C8 (amended): every input of exactly two bytes whose second byte is not CR
or LF is rejected by `Decode` — the prefix is unknown, or the single payload
byte is never valid unpadded base64url. -/
theorem decode_len2_amended (t : List Nat) (hlen : t.length = 2)
    (h10 : t.getD 1 0 ≠ 10) (h13 : t.getD 1 0 ≠ 13) :
    ∃ e, Decode t = .error e := by
  rcases t with _ | ⟨a, _ | ⟨b, _ | ⟨c, r⟩⟩⟩
  · simp at hlen
  · simp at hlen
  · have hb10 : b ≠ 10 := h10
    have hb13 : b ≠ 13 := h13
    rw [Decode]
    rw [if_neg (by simp)]
    by_cases hz : (PrefixToAlgs (([a, b] : List Nat).headD 0)).Sig = []
    · exact ⟨_, by rw [if_pos hz]⟩
    · refine ⟨.decodeFailed, ?_⟩
      rw [if_neg hz]
      have hd : ([a, b] : List Nat).drop 1 = [b] := rfl
      have hnone : base64RawURLDecode [b] = none := by
        rw [base64RawURLDecode]
        have e10 : (b == 10) = false := beq_eq_false_iff_ne.mpr hb10
        have e13 : (b == 13) = false := beq_eq_false_iff_ne.mpr hb13
        have hf : ([b] : List Nat).filter (fun c => !(c == 13 || c == 10)) = [b] := by
          simp [List.filter, e10, e13]
        rw [hf]
        rfl
      rw [hd, hnone]
  · simp [List.length_cons] at hlen

/-- C8 (witness): the two-byte input "e" then "A" is rejected. -/
theorem decode_len2_amended_witness :
    ∃ e, Decode [PrefixEd25519, 65] = .error e :=
  decode_len2_amended [PrefixEd25519, 65] (by decide) (by decide) (by decide)

/-- C10: the length-prefixed read primitive is total and exact — it fails
precisely when fewer than 4 bytes remain or fewer than the declared count
remain after the length field, and on success the data has exactly the
declared length and the 4 length bytes, data and rest partition the input. -/
theorem readString_total_exact (b : List Nat) :
    match readString b with
    | none => b.length < 4 ∨ b.length - 4 < be32 (b.take 4)
    | some (d, r) => d.length = be32 (b.take 4) ∧ 4 + d.length + r.length = b.length := by
  simp only [readString]
  rcases Nat.lt_or_ge b.length 4 with h | h
  · rw [if_pos h]
    exact Or.inl h
  · rw [if_neg (by omega)]
    rcases Nat.lt_or_ge (b.drop 4).length (be32 (b.take 4)) with h2 | h2
    · rw [if_pos h2]
      rw [List.length_drop] at h2
      exact Or.inr h2
    · rw [if_neg (by omega)]
      rw [List.length_drop] at h2
      constructor
      · rw [List.length_take, List.length_drop]
        omega
      · simp only [List.length_take, List.length_drop]
        omega

/-- The parser on any payload with a 10-byte header region: checks the magic
on the first 6 bytes and the version on the next 4, then parses the body. -/
lemma parseSignatureBlob_split (hd R : List Nat) (hh : hd.length = 10) :
    parseSignatureBlob (hd ++ R) =
      if hd.take 6 ≠ magicBytes then .error .invalidMagic
      else if be32 (hd.drop 6) ≠ 1 then .error .invalidVersion
      else parseSignatureBlobRest R := by
  have hd6 : (hd.drop 6).length = 4 := by rw [List.length_drop, hh]
  have t6 : (hd ++ R).take 6 = hd.take 6 := List.take_append_of_le_length (by omega)
  have d6 : (hd ++ R).drop 6 = hd.drop 6 ++ R := List.drop_append_of_le_length (by omega)
  have t4 : (hd.drop 6 ++ R).take 4 = hd.drop 6 := List.take_left' hd6
  have d4 : (hd.drop 6 ++ R).drop 4 = R := List.drop_left' hd6
  simp only [parseSignatureBlob]
  by_cases hmagic : hd.take 6 = magicBytes
  · have c1 : ¬((hd ++ R).length < 6 ∨ (hd ++ R).take 6 ≠ magicBytes) := by
      push_neg
      refine ⟨by rw [List.length_append, hh]; omega, by rw [t6]; exact hmagic⟩
    rw [if_neg c1, d6]
    by_cases hver : be32 (hd.drop 6) = 1
    · have c2 : ¬((hd.drop 6 ++ R).length < 4 ∨ be32 ((hd.drop 6 ++ R).take 4) ≠ 1) := by
        push_neg
        refine ⟨by rw [List.length_append, hd6]; omega, by rw [t4]; exact hver⟩
      rw [if_neg c2, d4, if_neg (by simp [hmagic]), if_neg (by simp [hver])]
    · have c2 : (hd.drop 6 ++ R).length < 4 ∨ be32 ((hd.drop 6 ++ R).take 4) ≠ 1 := by
        right
        rw [t4]
        exact hver
      rw [if_pos c2, if_neg (by simp [hmagic]), if_pos hver]
  · have c1 : (hd ++ R).length < 6 ∨ (hd ++ R).take 6 ≠ magicBytes := by
      right
      rw [t6]
      exact hmagic
    rw [if_pos c1, if_pos hmagic]

/-- C9: the parser's result does not depend on the data bytes of the three
skipped fields — two payloads with the same 10 header bytes, the same three
declared field lengths and the same remaining bytes parse identically, to
the same success value or the same error. -/
theorem skipped_fields_noninterference (hd pk pk' ns ns' rsv rsv' tail : List Nat)
    (hh : hd.length = 10)
    (hpk : pk.length = pk'.length) (hns : ns.length = ns'.length)
    (hrsv : rsv.length = rsv'.length)
    (h1 : pk.length < 2 ^ 32) (h2 : ns.length < 2 ^ 32) (h3 : rsv.length < 2 ^ 32) :
    parseSignatureBlob (hd ++ (encStr pk ++ (encStr ns ++ (encStr rsv ++ tail)))) =
      parseSignatureBlob (hd ++ (encStr pk' ++ (encStr ns' ++ (encStr rsv' ++ tail)))) := by
  have h1' : pk'.length < 2 ^ 32 := hpk ▸ h1
  have h2' : ns'.length < 2 ^ 32 := hns ▸ h2
  have h3' : rsv'.length < 2 ^ 32 := hrsv ▸ h3
  rw [parseSignatureBlob_split _ _ hh, parseSignatureBlob_split _ _ hh]
  by_cases hmagic : hd.take 6 ≠ magicBytes
  · rw [if_pos hmagic, if_pos hmagic]
  · rw [if_neg hmagic, if_neg hmagic]
    by_cases hver : be32 (hd.drop 6) ≠ 1
    · rw [if_pos hver, if_pos hver]
    · rw [if_neg hver, if_neg hver]
      simp only [parseSignatureBlobRest,
        skipString_encStr _ _ h1, skipString_encStr _ _ h2, skipString_encStr _ _ h3,
        skipString_encStr _ _ h1', skipString_encStr _ _ h2', skipString_encStr _ _ h3']

/-- C9 (witness): two concrete payloads differing only in the three skipped
fields' data bytes parse to the same result. -/
theorem skipped_fields_noninterference_witness :
    parseSignatureBlob ((magicBytes ++ [0, 0, 0, 1]) ++
        (encStr [1] ++ (encStr [2] ++ (encStr [3] ++ encStr HashSHA512)))) =
      parseSignatureBlob ((magicBytes ++ [0, 0, 0, 1]) ++
        (encStr [4] ++ (encStr [5] ++ (encStr [6] ++ encStr HashSHA512)))) :=
  skipped_fields_noninterference (magicBytes ++ [0, 0, 0, 1]) [1] [4] [2] [5] [3] [6]
    (encStr HashSHA512) (by decide) (by decide) (by decide) (by decide)
    (by decide) (by decide) (by decide)

/-- C3 (counterexample): the 3-byte prefix of an accepted payload fails with
the bad-magic error, not the truncation error, so a strict prefix of a valid
payload does not always return the truncation error. -/
theorem truncation_error_counterexample :
    parseSignatureBlob (validPayload [] [] [] HashSHA512
        (encStr SigEd25519 ++ encStr [1, 2, 3])) =
      .ok (SigEd25519, HashSHA512, [1, 2, 3]) ∧
    ((validPayload [] [] [] HashSHA512 (encStr SigEd25519 ++ encStr [1, 2, 3])).take 3).length <
      (validPayload [] [] [] HashSHA512 (encStr SigEd25519 ++ encStr [1, 2, 3])).length ∧
    parseSignatureBlob ((validPayload [] [] [] HashSHA512
        (encStr SigEd25519 ++ encStr [1, 2, 3])).take 3) =
      .error .invalidMagic ∧
    ParseErr.invalidMagic ≠ ParseErr.truncated := by decide

/-- The parser body fails on every strict byte-for-byte truncation of a
well-formed body: inside the three skipped fields with the truncation error,
and later with the invalid-blob error. -/
lemma parseSignatureBlobRest_strict_trunc (f1 f2 f3 ha blb : List Nat)
    (h1 : f1.length < 2 ^ 32) (h2 : f2.length < 2 ^ 32) (h3 : f3.length < 2 ^ 32)
    (h4 : ha.length < 2 ^ 32) (h5 : blb.length < 2 ^ 32) (j : Nat)
    (hj : j < (encStr f1 ++ (encStr f2 ++ (encStr f3 ++ (encStr ha ++ encStr blb)))).length) :
    ∃ e, parseSignatureBlobRest
        ((encStr f1 ++ (encStr f2 ++ (encStr f3 ++ (encStr ha ++ encStr blb)))).take j) =
      .error e := by
  simp only [List.length_append, length_encStr] at hj
  rcases Nat.lt_or_ge j (4 + f1.length) with c1 | c1
  · refine ⟨.truncated, ?_⟩
    have e1 := skipString_take f1 (encStr f2 ++ (encStr f3 ++ (encStr ha ++ encStr blb))) h1 j
    rw [if_pos c1] at e1
    simp only [parseSignatureBlobRest, e1, skipString_none]
  · have e1 := skipString_take f1 (encStr f2 ++ (encStr f3 ++ (encStr ha ++ encStr blb))) h1 j
    rw [if_neg (by omega)] at e1
    rcases Nat.lt_or_ge (j - (4 + f1.length)) (4 + f2.length) with c2 | c2
    · refine ⟨.truncated, ?_⟩
      have e2 := skipString_take f2 (encStr f3 ++ (encStr ha ++ encStr blb)) h2
        (j - (4 + f1.length))
      rw [if_pos c2] at e2
      simp only [parseSignatureBlobRest, e1, e2, skipString_none]
    · have e2 := skipString_take f2 (encStr f3 ++ (encStr ha ++ encStr blb)) h2
        (j - (4 + f1.length))
      rw [if_neg (by omega)] at e2
      rcases Nat.lt_or_ge (j - (4 + f1.length) - (4 + f2.length)) (4 + f3.length) with c3 | c3
      · refine ⟨.truncated, ?_⟩
        have e3 := skipString_take f3 (encStr ha ++ encStr blb) h3
          (j - (4 + f1.length) - (4 + f2.length))
        rw [if_pos c3] at e3
        simp only [parseSignatureBlobRest, e1, e2, e3]
      · have e3 := skipString_take f3 (encStr ha ++ encStr blb) h3
          (j - (4 + f1.length) - (4 + f2.length))
        rw [if_neg (by omega)] at e3
        rcases Nat.lt_or_ge (j - (4 + f1.length) - (4 + f2.length) - (4 + f3.length))
            (4 + ha.length) with c4 | c4
        · refine ⟨.invalidSigBlob, ?_⟩
          have e4 := readString_take ha (encStr blb) h4
            (j - (4 + f1.length) - (4 + f2.length) - (4 + f3.length))
          rw [if_pos c4] at e4
          simp only [parseSignatureBlobRest, e1, e2, e3, e4]
        · refine ⟨.invalidSigBlob, ?_⟩
          have e4 := readString_take ha (encStr blb) h4
            (j - (4 + f1.length) - (4 + f2.length) - (4 + f3.length))
          rw [if_neg (by omega)] at e4
          have e5 : readString ((encStr blb).take
              (j - (4 + f1.length) - (4 + f2.length) - (4 + f3.length) - (4 + ha.length))) =
              none := by
            have e6 := readString_take blb [] h5
              (j - (4 + f1.length) - (4 + f2.length) - (4 + f3.length) - (4 + ha.length))
            rw [if_pos (by omega)] at e6
            rw [List.append_nil] at e6
            exact e6
          simp only [parseSignatureBlobRest, e1, e2, e3, e4, e5]

/-- Parsing any strict byte-for-byte prefix of an exactly-formed payload
fails with one of the parse errors. -/
lemma parse_strict_trunc (f1 f2 f3 ha blb : List Nat)
    (h1 : f1.length < 2 ^ 32) (h2 : f2.length < 2 ^ 32) (h3 : f3.length < 2 ^ 32)
    (h4 : ha.length < 2 ^ 32) (h5 : blb.length < 2 ^ 32) (k : Nat)
    (hk : k < (validPayload f1 f2 f3 ha blb).length) :
    ∃ e, parseSignatureBlob ((validPayload f1 f2 f3 ha blb).take k) = .error e := by
  have e0 : validPayload f1 f2 f3 ha blb =
      (magicBytes ++ [0, 0, 0, 1]) ++
        (encStr f1 ++ (encStr f2 ++ (encStr f3 ++ (encStr ha ++ encStr blb)))) := by
    simp [validPayload, List.append_assoc]
  have hHD : (magicBytes ++ [0, 0, 0, 1] : List Nat).length = 10 := by decide
  have htot : ((magicBytes ++ [0, 0, 0, 1]) ++
      (encStr f1 ++ (encStr f2 ++ (encStr f3 ++ (encStr ha ++ encStr blb))))).length =
      10 + (encStr f1 ++ (encStr f2 ++ (encStr f3 ++ (encStr ha ++ encStr blb)))).length := by
    rw [List.length_append, hHD]
  rw [e0] at hk ⊢
  rw [htot] at hk
  rcases Nat.lt_or_ge k 6 with c0 | c0
  · refine ⟨.invalidMagic, ?_⟩
    simp only [parseSignatureBlob]
    rw [if_pos]
    left
    rw [List.length_take]
    omega
  · rcases Nat.lt_or_ge k 10 with c0b | c0b
    · refine ⟨.invalidVersion, ?_⟩
      have t6 : ((((magicBytes ++ [0, 0, 0, 1]) ++
          (encStr f1 ++ (encStr f2 ++ (encStr f3 ++ (encStr ha ++ encStr blb))))).take k).take 6) =
          magicBytes := by
        rw [List.take_take, min_eq_left (by omega),
          List.take_append_of_le_length (by rw [hHD]; omega)]
        exact List.take_left' rfl
      have c1 : ¬((((magicBytes ++ [0, 0, 0, 1]) ++
          (encStr f1 ++ (encStr f2 ++ (encStr f3 ++ (encStr ha ++ encStr blb))))).take k).length < 6 ∨
          (((magicBytes ++ [0, 0, 0, 1]) ++
          (encStr f1 ++ (encStr f2 ++ (encStr f3 ++ (encStr ha ++ encStr blb))))).take k).take 6 ≠
            magicBytes) := by
        push_neg
        refine ⟨?_, t6⟩
        rw [List.length_take, htot]
        omega
      simp only [parseSignatureBlob]
      rw [if_neg c1, if_pos]
      left
      rw [List.length_drop, List.length_take, htot]
      omega
    · have htk : ((magicBytes ++ [0, 0, 0, 1]) ++
          (encStr f1 ++ (encStr f2 ++ (encStr f3 ++ (encStr ha ++ encStr blb))))).take k =
          (magicBytes ++ [0, 0, 0, 1]) ++
            (encStr f1 ++ (encStr f2 ++ (encStr f3 ++ (encStr ha ++ encStr blb)))).take (k - 10) := by
        rw [List.take_append_eq_append_take,
          List.take_of_length_le (by rw [hHD]; omega), hHD]
      obtain ⟨e, he⟩ := parseSignatureBlobRest_strict_trunc f1 f2 f3 ha blb h1 h2 h3 h4 h5
        (k - 10) (by omega)
      refine ⟨e, ?_⟩
      rw [htk, parseSignatureBlob_split _ _ hHD,
        if_neg (show ¬(magicBytes ++ [0, 0, 0, 1] : List Nat).take 6 ≠ magicBytes by decide),
        if_neg (show ¬be32 ((magicBytes ++ [0, 0, 0, 1] : List Nat).drop 6) ≠ 1 by decide)]
      exact he

/-- C3 (amended): an exactly-formed payload (no bytes after the signature-blob
field) parses successfully, and parsing any strict byte-for-byte prefix of it
fails with one of the parse errors — bad magic, bad version, truncated, or
invalid signature blob, depending on where the cut falls — never reading out
of bounds. -/
theorem strict_truncation_fails (f1 f2 f3 ha sa sd tr : List Nat)
    (h1 : f1.length < 2 ^ 32) (h2 : f2.length < 2 ^ 32) (h3 : f3.length < 2 ^ 32)
    (h4 : ha.length < 2 ^ 32) (h5 : (encStr sa ++ encStr sd ++ tr).length < 2 ^ 32)
    (h6 : sa.length < 2 ^ 32) (h7 : sd.length < 2 ^ 32) (k : Nat)
    (hk : k < (validPayload f1 f2 f3 ha (encStr sa ++ encStr sd ++ tr)).length) :
    parseSignatureBlob (validPayload f1 f2 f3 ha (encStr sa ++ encStr sd ++ tr)) =
      .ok (sa, ha, sd ++ tr) ∧
    ∃ e, parseSignatureBlob
        ((validPayload f1 f2 f3 ha (encStr sa ++ encStr sd ++ tr)).take k) = .error e :=
  ⟨parse_wellFormed f1 f2 f3 ha sa sd tr h1 h2 h3 h4 h5 h6 h7,
    parse_strict_trunc f1 f2 f3 ha (encStr sa ++ encStr sd ++ tr) h1 h2 h3 h4 h5 k hk⟩

/-- C3 (witness): a concrete exactly-formed payload parses, and its 3-byte
prefix fails with a parse error. -/
theorem strict_truncation_fails_witness :
    parseSignatureBlob (validPayload [] [] [] HashSHA512
        (encStr SigEd25519 ++ encStr [1, 2, 3] ++ [])) =
      .ok (SigEd25519, HashSHA512, [1, 2, 3] ++ []) ∧
    ∃ e, parseSignatureBlob ((validPayload [] [] [] HashSHA512
        (encStr SigEd25519 ++ encStr [1, 2, 3] ++ [])).take 3) = .error e :=
  strict_truncation_fails [] [] [] HashSHA512 SigEd25519 [1, 2, 3] []
    (by decide) (by decide) (by decide) (by decide) (by decide) (by decide) (by decide)
    3 (by decide)
